import Mathlib

/-
  Formal model of the Morse decoding core of serial_keyboard.c
  (CW Hotline to Keyboard converter).

  The embedding mirrors the C source directly:
  - the global decoder state (dotTiming, dashTiming, morseTreePos,
    elementCount, decodedBuffer, pendingWordGap) becomes the record
    DecoderState, with the printed text tracked in flushedOut;
  - machine int arithmetic is modelled over Int (values stay far below
    any overflow bound on all paths of interest);
  - the C test  pauseTime > dotTiming * 2.5  over doubles is exact for
    integer operands and is written 5*dotTiming < 2*pauseTime;
  - the C test  charLength < dotTiming * 0.6  is written
    5*charLength < 3*dotTiming, which agrees with the double
    computation for all integer operands in range (the nearest double
    to 0.6 differs from 3/5 by less than one part in 10^16, never
    enough to move an integer comparison);
  - C integer division /4 on nonnegative operands agrees with Int
    division in Lean (both are the floor), used in the EMA updates.
-/

set_option maxRecDepth 8000

namespace CW

/-- Classification result of one pulse record (press_key 0 / press_key 1 /
glitch filtered). -/
inductive Symbol where
  | dot
  | dash
  | noise
deriving DecidableEq

/-- The mutable decoder state of serial_keyboard.c: timing model,
tree walker, decoded-text buffer, already printed text, and the
pending word gap flag. -/
structure DecoderState where
  dotTiming : Int
  dashTiming : Int
  morseTreePos : Nat
  elementCount : Nat
  decoded : List Char
  flushedOut : List Char
  pendingWordGap : Bool
deriving DecidableEq

/-- The NUL character, marking unused tree slots. -/
def nul : Char := Char.ofNat 0

/-- The apostrophe character. -/
def apos : Char := Char.ofNat 39

/-- The 128 entry morseTree array of serial_keyboard.c, including the
six stray positional initializers that land at indices 63 to 68 after
the entry for index 62, and the designated initializers for indices
70, 75, 84, 93, 96, 97, 105, 106, 114, 119. -/
def morseTree : List Char :=
  [ nul, 'E', 'T', 'I', 'A', 'N', 'M', 'S',
    'U', 'R', 'W', 'D', 'K', 'G', 'O', 'H',
    'V', 'F', nul, 'L', '\n', 'P', 'J', 'B',
    'X', 'C', 'Y', 'Z', 'Q', nul, nul, '5',
    '4', nul, '3', nul, nul, nul, '2', nul,
    nul, '+', nul, nul, nul, nul, '1', '6',
    '=', '/', nul, nul, nul, '(', nul, '7',
    nul, nul, nul, '8', nul, '9', '0', '.',
    ',', '?', apos, '!', ':', nul, ';', nul,
    nul, nul, nul, '?', nul, nul, nul, nul,
    nul, nul, nul, nul, '.', nul, nul, nul,
    nul, nul, nul, nul, nul, apos, nul, nul,
    '-', '-', nul, nul, nul, nul, nul, nul,
    nul, ';', '!', nul, nul, nul, nul, nul,
    nul, nul, ',', nul, nul, nul, nul, ':',
    nul, nul, nul, nul, nul, nul, nul, nul ]

/-- morseTree[i] with the out of range read guarded by NUL (the C code
only ever indexes below 128, see the bounds claims). -/
def treeChar (i : Nat) : Char := morseTree.getD i nul

/-- The initial decoder state: both timings unlearned (-1), tree walker
at the root, empty buffers. -/
def initialState : DecoderState :=
  { dotTiming := -1, dashTiming := -1, morseTreePos := 0, elementCount := 0,
    decoded := [], flushedOut := [], pendingWordGap := false }

/-- Case conversion in addDecodedChar: uppercase letters become
lowercase when lowercaseMode is on. -/
def applyCase (lc : Bool) (c : Char) : Char :=
  if 'A' ≤ c ∧ c ≤ 'Z' ∧ lc then Char.ofNat (c.toNat - 65 + 97) else c

/-- flushDecoded: moves the decoded buffer to the printed stream when
nonempty. -/
def flushDecoded (s : DecoderState) : DecoderState :=
  if 0 < s.decoded.length then
    { s with flushedOut := s.flushedOut ++ s.decoded, decoded := [] }
  else s

/-- addDecodedChar: case fold, append to the 256 byte buffer when it
has room, then auto flush at 64 chars or on space or newline. -/
def addDecodedChar (lc : Bool) (c0 : Char) (s : DecoderState) : DecoderState :=
  let c := applyCase lc c0
  let s1 := if s.decoded.length < 255 then { s with decoded := s.decoded ++ [c] } else s
  if 64 ≤ s1.decoded.length ∨ c = ' ' ∨ c = '\n' then flushDecoded s1 else s1

/-- completeCharacter: if a sequence is pending and within bounds, emit
the tree character when defined and raise pendingWordGap; always reset
the walker to the root. -/
def completeCharacter (lc : Bool) (s : DecoderState) : DecoderState :=
  let s1 :=
    if 0 < s.elementCount ∧ s.morseTreePos < 128 then
      if treeChar s.morseTreePos ≠ nul then
        { addDecodedChar lc (treeChar s.morseTreePos) s with pendingWordGap := true }
      else s
    else s
  { s1 with morseTreePos := 0, elementCount := 0 }

/-- The characters that completeCharacter would append to the output
for the current accumulated sequence (one character, or none). -/
def charEmission (lc : Bool) (s : DecoderState) : List Char :=
  if 0 < s.elementCount ∧ s.morseTreePos < 128 ∧ treeChar s.morseTreePos ≠ nul then
    [applyCase lc (treeChar s.morseTreePos)]
  else []

/-- checkTimeout: given the elapsed ms since the last activity (active
is false when no activity was ever recorded), flush a pending
character after 1500 ms and clear the pendingWordGap flag after
500 ms, emitting nothing for the gap. -/
def checkTimeout (lc : Bool) (s : DecoderState) (elapsed : Nat) (active : Bool) : DecoderState :=
  if !active then s
  else
    let s1 :=
      if 0 < s.elementCount ∧ 1500 < elapsed then flushDecoded (completeCharacter lc s)
      else s
    if s1.pendingWordGap ∧ 500 < elapsed ∧ s1.elementCount = 0 then
      { s1 with pendingWordGap := false }
    else s1

/-- addDit: move to the left child when the position still has children
inside the 128 entry table. -/
def addDit (s : DecoderState) : DecoderState :=
  if s.morseTreePos < 63 then
    { s with morseTreePos := s.morseTreePos * 2 + 1, elementCount := s.elementCount + 1 }
  else s

/-- addDah: move to the right child when the position still has
children inside the 128 entry table. -/
def addDah (s : DecoderState) : DecoderState :=
  if s.morseTreePos < 63 then
    { s with morseTreePos := s.morseTreePos * 2 + 2, elementCount := s.elementCount + 1 }
  else s

/-- isClose of serial_keyboard.c: within the 50 ms tolerance. -/
def isClose (v t : Int) : Bool := |v - t| ≤ 50

/-- The boundary check at the top of processCommandWithComma: when the
dot length is learned and the pause exceeds 2.5 dot units, complete
the previous character, and additionally append a word space when the
pause exceeds 6 dot units. -/
def boundaryPhase (lc : Bool) (s : DecoderState) (p : Nat) : DecoderState :=
  if 0 < s.dotTiming ∧ 5 * s.dotTiming < 2 * (p : Int) then
    let t := completeCharacter lc s
    if 6 * s.dotTiming < (p : Int) then addDecodedChar lc ' ' t else t
  else s

/-- The classification tail of processCommandWithComma: second value
learning, the two self correction rules, the tolerance matches with
EMA updates, and the nearest distance fallback. -/
def classifyPhase (_lc : Bool) (s : DecoderState) (l : Nat) : DecoderState × Symbol :=
  let L : Int := (l : Int)
  if s.dashTiming = -1 then
    if isClose L s.dotTiming then (addDit s, Symbol.dot)
    else
      let s2 :=
        if s.dotTiming < L then { s with dashTiming := L }
        else { s with dashTiming := s.dotTiming, dotTiming := L }
      if L = s2.dotTiming then (addDit s2, Symbol.dot) else (addDah s2, Symbol.dash)
  else if 5 * L < 3 * s.dotTiming ∧ 30 < L then
    (addDit { s with dashTiming := s.dotTiming, dotTiming := L }, Symbol.dot)
  else if 6 * s.dotTiming < s.dashTiming ∧ 2 * s.dotTiming < L ∧ L < s.dashTiming then
    (addDah { s with dashTiming := L }, Symbol.dash)
  else if isClose L s.dotTiming then
    let t := addDit s
    ({ t with dotTiming := (t.dotTiming * 3 + L) / 4 }, Symbol.dot)
  else if isClose L s.dashTiming then
    let t := addDah s
    ({ t with dashTiming := (t.dashTiming * 3 + L) / 4 }, Symbol.dash)
  else
    if |L - s.dotTiming| < |L - s.dashTiming| then (addDit s, Symbol.dot)
    else (addDah s, Symbol.dash)

/-- Processing of one parsed (pauseMs, lengthMs) record, the body of
processCommandWithComma after the two fields are extracted: glitch
filter, cold start learning, then boundary detection followed by
classification. -/
def processRecord (lc : Bool) (s : DecoderState) (p l : Nat) : DecoderState × Symbol :=
  if l < 30 then (s, Symbol.noise)
  else if s.dotTiming = -1 then
    (addDit { s with dotTiming := (l : Int) }, Symbol.dot)
  else classifyPhase lc (boundaryPhase lc s p) l

/-- Fold a list of (pauseMs, lengthMs) records through the decoder. -/
def runRecords (lc : Bool) (s : DecoderState) (rs : List (Nat × Nat)) : DecoderState :=
  rs.foldl (fun t r => (processRecord lc t r.1 r.2).1) s

/-- The abstract output stream: everything printed so far followed by
the buffered decoded text. -/
def output (s : DecoderState) : List Char := s.flushedOut ++ s.decoded

/-- States reachable by the decoder from start: any sequence of parsed
records and timeout polls. -/
inductive Reachable (lc : Bool) : DecoderState → Prop where
  | init : Reachable lc initialState
  | step (p l : Nat) {s : DecoderState} :
      Reachable lc s → Reachable lc (processRecord lc s p l).1
  | tick (e : Nat) (act : Bool) {s : DecoderState} :
      Reachable lc s → Reachable lc (checkTimeout lc s e act)

/-- atoi on an already extracted digit run. -/
def parseNat (ds : List Char) : Nat :=
  ds.foldl (fun a c => a * 10 + (c.toNat - 48)) 0

/-- The leading digit run of a field, capped at 31 characters by the
32 byte parse buffers of processCommandWithComma. -/
def digitsOf (cs : List Char) : List Char :=
  (cs.takeWhile (fun c => c.isDigit)).take 31

/-- strchr for a comma: the suffix just after the first comma, if any. -/
def splitAfterComma : List Char → Option (List Char)
  | [] => none
  | c :: cs => if c = ',' then some cs else splitAfterComma cs

/-- processCommandWithComma on the text after the first comma: parse
the pause digits, require a second comma, parse the length digits,
reject a zero length, otherwise process the record; on success the
scan resumes at the last consumed digit of the length field. -/
def processCommand (lc : Bool) (s : DecoderState) (rest : List Char) :
    Option (DecoderState × List Char) :=
  let pauseTime := parseNat (digitsOf rest)
  match splitAfterComma rest with
  | none => none
  | some after2 =>
    let lenDigits := digitsOf after2
    let charLength := parseNat lenDigits
    if charLength = 0 then none
    else some ((processRecord lc s pauseTime charLength).1,
               after2.drop (lenDigits.length - 1))

/-- strpbrk for the record marker: the suffix starting at the first
letter S or s, if any. -/
def dropToMarker : List Char → Option (List Char)
  | [] => none
  | c :: cs => if c = 'S' ∨ c = 's' then some (c :: cs) else dropToMarker cs

/-- isdigit on the first character of the remaining text (false at end
of line, matching the NUL terminator in C). -/
def digitHead : List Char → Bool
  | [] => false
  | c :: _ => c.isDigit

/-- The pattern check and record handoff of handleLine for one marker:
a digit must follow the first comma and the second comma, then the
record is parsed and processed. -/
def tryRecord (lc : Bool) (s : DecoderState) (afterComma : List Char) :
    Option (DecoderState × List Char) :=
  if digitHead afterComma then
    match splitAfterComma afterComma with
    | some after2 => if digitHead after2 then processCommand lc s afterComma else none
    | none => none
  else none

/-- The marker scan loop of handleLine, with explicit fuel (each C
iteration either stops or strictly advances the cursor, so a fuel of
line length plus one is enough). On a rejected record the cursor moves
one character past the marker. -/
def handleLineAux (lc : Bool) : Nat → DecoderState → List Char → DecoderState
  | 0, s, _ => s
  | fuel + 1, s, cs =>
    match dropToMarker cs with
    | none => s
    | some csS =>
      match List.findIdx? (fun c => c == ',') csS with
      | none => s
      | some idx =>
        if 20 < idx then handleLineAux lc fuel s (csS.drop 1)
        else
          match tryRecord lc s (csS.drop (idx + 1)) with
          | some (s2, resume) => handleLineAux lc fuel s2 resume
          | none => handleLineAux lc fuel s (csS.drop 1)

/-- handleLine of serial_keyboard.c on one text line. -/
def handleLine (lc : Bool) (s : DecoderState) (cs : List Char) : DecoderState :=
  handleLineAux lc (cs.length + 1) s cs

/-- The dot dash path from the root to a tree position: left child
2i+1 is a dit, right child 2i+2 is a dah (false = dit, true = dah).
Seven fuel steps cover every index below 128. -/
def pathToAux : Nat → Nat → List Bool
  | 0, _ => []
  | fuel + 1, p =>
    if p = 0 then [] else pathToAux fuel ((p - 1) / 2) ++ [p % 2 == 0]

/-- The dot dash path from the root to a tree position. -/
def pathTo (p : Nat) : List Bool := pathToAux 7 p

/-- Feed a dot dash path symbol by symbol into the accumulator. -/
def feedPath (s : DecoderState) (path : List Bool) : DecoderState :=
  path.foldl (fun t b => if b then addDah t else addDit t) s

/-- The structural invariant maintained by the decoder: a learned dot
time is at least the 30 ms noise floor, the decoded buffer stays under
the 64 char auto flush bound, and the tree walker stays inside the
first 127 slots. -/
def Inv (s : DecoderState) : Prop :=
  (s.dotTiming = -1 ∨ 30 ≤ s.dotTiming) ∧ s.decoded.length ≤ 63 ∧ s.morseTreePos ≤ 126

/-! ### Basic facts about the elementary state operations -/

theorem addDit_fields (s : DecoderState) :
    (addDit s).dotTiming = s.dotTiming ∧ (addDit s).dashTiming = s.dashTiming ∧
    (addDit s).decoded = s.decoded ∧ (addDit s).flushedOut = s.flushedOut := by
  unfold addDit; split <;> exact ⟨rfl, rfl, rfl, rfl⟩

theorem addDah_fields (s : DecoderState) :
    (addDah s).dotTiming = s.dotTiming ∧ (addDah s).dashTiming = s.dashTiming ∧
    (addDah s).decoded = s.decoded ∧ (addDah s).flushedOut = s.flushedOut := by
  unfold addDah; split <;> exact ⟨rfl, rfl, rfl, rfl⟩

theorem addDit_pos_le (s : DecoderState) (h : s.morseTreePos ≤ 126) :
    (addDit s).morseTreePos ≤ 126 := by
  unfold addDit
  split
  · next h2 => simp; omega
  · exact h

theorem addDah_pos_le (s : DecoderState) (h : s.morseTreePos ≤ 126) :
    (addDah s).morseTreePos ≤ 126 := by
  unfold addDah
  split
  · next h2 => simp; omega
  · exact h

theorem flushDecoded_fields (s : DecoderState) :
    (flushDecoded s).dotTiming = s.dotTiming ∧ (flushDecoded s).dashTiming = s.dashTiming ∧
    (flushDecoded s).morseTreePos = s.morseTreePos ∧
    (flushDecoded s).elementCount = s.elementCount ∧
    (flushDecoded s).pendingWordGap = s.pendingWordGap := by
  unfold flushDecoded; split <;> exact ⟨rfl, rfl, rfl, rfl, rfl⟩

theorem flushDecoded_decoded (s : DecoderState) : (flushDecoded s).decoded = [] := by
  unfold flushDecoded
  split
  · rfl
  · next h => simpa using List.length_eq_zero.mp (by omega)

theorem output_flushDecoded (s : DecoderState) : output (flushDecoded s) = output s := by
  unfold output flushDecoded
  split
  · simp
  · rfl

theorem addDecodedChar_fields (lc : Bool) (c : Char) (s : DecoderState) :
    (addDecodedChar lc c s).dotTiming = s.dotTiming ∧
    (addDecodedChar lc c s).dashTiming = s.dashTiming ∧
    (addDecodedChar lc c s).morseTreePos = s.morseTreePos ∧
    (addDecodedChar lc c s).elementCount = s.elementCount ∧
    (addDecodedChar lc c s).pendingWordGap = s.pendingWordGap := by
  unfold addDecodedChar
  dsimp only
  split <;> split <;>
    simp [flushDecoded_fields]

theorem addDecodedChar_len (lc : Bool) (c : Char) (s : DecoderState)
    (h : s.decoded.length ≤ 63) : (addDecodedChar lc c s).decoded.length ≤ 63 := by
  unfold addDecodedChar
  dsimp only
  split
  · next h1 =>
    split
    · simp [flushDecoded_decoded]
    · next h2 => simp at h2 ⊢; omega
  · next h1 =>
    split
    · simp [flushDecoded_decoded]
    · omega

theorem output_addDecodedChar (lc : Bool) (c : Char) (s : DecoderState)
    (h : s.decoded.length ≤ 254) :
    output (addDecodedChar lc c s) = output s ++ [applyCase lc c] := by
  unfold addDecodedChar
  have hlt : s.decoded.length < 255 := by omega
  dsimp only
  rw [if_pos hlt]
  split
  · rw [output_flushDecoded]; unfold output; simp
  · unfold output; simp

theorem count_space_addDecodedChar (lc : Bool) (c : Char) (s : DecoderState)
    (hc : applyCase lc c ≠ ' ') :
    ((output (addDecodedChar lc c s)).count ' ') = (output s).count ' ' := by
  unfold addDecodedChar
  dsimp only
  split
  · next h1 =>
    have hone : List.count ' ' [applyCase lc c] = 0 :=
      List.count_eq_zero.mpr (by simpa using fun h => hc h.symm)
    split
    · rw [output_flushDecoded]; unfold output
      simp [List.count_append, hone]
    · unfold output
      simp [List.count_append, hone]
  · next h1 =>
    split
    · rw [output_flushDecoded]
    · rfl

/-! ### Facts about completeCharacter -/

theorem completeCharacter_pos (lc : Bool) (s : DecoderState) :
    (completeCharacter lc s).morseTreePos = 0 := rfl

theorem completeCharacter_count (lc : Bool) (s : DecoderState) :
    (completeCharacter lc s).elementCount = 0 := rfl

theorem completeCharacter_timings (lc : Bool) (s : DecoderState) :
    (completeCharacter lc s).dotTiming = s.dotTiming ∧
    (completeCharacter lc s).dashTiming = s.dashTiming := by
  unfold completeCharacter
  split
  · split
    · exact ⟨(addDecodedChar_fields lc _ s).1, (addDecodedChar_fields lc _ s).2.1⟩
    · exact ⟨rfl, rfl⟩
  · exact ⟨rfl, rfl⟩

theorem completeCharacter_decoded_len (lc : Bool) (s : DecoderState)
    (h : s.decoded.length ≤ 63) : (completeCharacter lc s).decoded.length ≤ 63 := by
  unfold completeCharacter
  split
  · split
    · exact addDecodedChar_len lc _ s h
    · exact h
  · exact h

theorem output_completeCharacter (lc : Bool) (s : DecoderState)
    (h : s.decoded.length ≤ 254) :
    output (completeCharacter lc s) = output s ++ charEmission lc s := by
  unfold completeCharacter charEmission
  split
  · next h1 =>
    split
    · next h2 =>
      rw [if_pos ⟨h1.1, h1.2, h2⟩]
      show output (addDecodedChar lc _ s) = _
      exact output_addDecodedChar lc _ s h
    · next h2 =>
      rw [if_neg (by tauto)]
      show output s = output s ++ []
      simp
  · next h1 =>
    rw [if_neg (by tauto)]
    show output s = output s ++ []
    simp

theorem addDit_dot (s : DecoderState) : (addDit s).dotTiming = s.dotTiming :=
  (addDit_fields s).1

theorem addDit_dash (s : DecoderState) : (addDit s).dashTiming = s.dashTiming :=
  (addDit_fields s).2.1

theorem addDit_decoded (s : DecoderState) : (addDit s).decoded = s.decoded :=
  (addDit_fields s).2.2.1

theorem addDit_flushed (s : DecoderState) : (addDit s).flushedOut = s.flushedOut :=
  (addDit_fields s).2.2.2

theorem addDah_dot (s : DecoderState) : (addDah s).dotTiming = s.dotTiming :=
  (addDah_fields s).1

theorem addDah_dash (s : DecoderState) : (addDah s).dashTiming = s.dashTiming :=
  (addDah_fields s).2.1

theorem addDah_decoded (s : DecoderState) : (addDah s).decoded = s.decoded :=
  (addDah_fields s).2.2.1

theorem addDah_flushed (s : DecoderState) : (addDah s).flushedOut = s.flushedOut :=
  (addDah_fields s).2.2.2

theorem applyCase_space (lc : Bool) : applyCase lc ' ' = ' ' := by
  cases lc <;> decide

theorem morseTree_length : morseTree.length = 128 := by decide

theorem applyCase_treeChar_ne_space (lc : Bool) (i : Nat) :
    applyCase lc (treeChar i) ≠ ' ' := by
  rcases Nat.lt_or_ge i 128 with h | h
  · have key : ∀ lc2 : Bool, ∀ j, j < 128 → applyCase lc2 (treeChar j) ≠ ' ' := by decide
    exact key lc i h
  · have hd : treeChar i = nul := by
      unfold treeChar
      exact List.getD_eq_default _ _ (by rw [morseTree_length]; omega)
    rw [hd]; cases lc <;> decide

theorem count_space_completeCharacter (lc : Bool) (s : DecoderState) :
    (output (completeCharacter lc s)).count ' ' = (output s).count ' ' := by
  unfold completeCharacter
  dsimp only
  split
  · split
    · show (output (addDecodedChar lc (treeChar s.morseTreePos) s)).count ' ' = _
      exact count_space_addDecodedChar lc _ s (applyCase_treeChar_ne_space lc _)
    · rfl
  · rfl

/-! ### The classification phase does not touch the output -/

theorem classifyPhase_buffers (lc : Bool) (s : DecoderState) (l : Nat) :
    (classifyPhase lc s l).1.decoded = s.decoded ∧
    (classifyPhase lc s l).1.flushedOut = s.flushedOut := by
  unfold classifyPhase
  dsimp only
  repeat' split
  all_goals
    simp [addDit_decoded, addDit_flushed, addDah_decoded, addDah_flushed]

theorem output_classifyPhase (lc : Bool) (s : DecoderState) (l : Nat) :
    output (classifyPhase lc s l).1 = output s := by
  unfold output
  rw [(classifyPhase_buffers lc s l).1, (classifyPhase_buffers lc s l).2]

theorem classifyPhase_pos_le (lc : Bool) (s : DecoderState) (l : Nat)
    (h : s.morseTreePos ≤ 126) : (classifyPhase lc s l).1.morseTreePos ≤ 126 := by
  unfold classifyPhase
  dsimp only
  repeat' split
  all_goals
    first
    | exact addDit_pos_le _ h
    | exact addDah_pos_le _ h

theorem classifyPhase_dotInv (lc : Bool) (s : DecoderState) (l : Nat)
    (hl : 30 ≤ l) (hdot : 30 ≤ s.dotTiming) :
    (classifyPhase lc s l).1.dotTiming = -1 ∨ 30 ≤ (classifyPhase lc s l).1.dotTiming := by
  unfold classifyPhase
  dsimp only
  repeat' split
  all_goals simp only [addDit_dot, addDah_dot]
  all_goals omega

/-! ### The boundary phase preserves the timing model and the bounds -/

theorem boundaryPhase_timings (lc : Bool) (s : DecoderState) (p : Nat) :
    (boundaryPhase lc s p).dotTiming = s.dotTiming ∧
    (boundaryPhase lc s p).dashTiming = s.dashTiming := by
  unfold boundaryPhase
  dsimp only
  split
  · split
    · constructor
      · rw [(addDecodedChar_fields lc ' ' _).1, (completeCharacter_timings lc s).1]
      · rw [(addDecodedChar_fields lc ' ' _).2.1, (completeCharacter_timings lc s).2]
    · exact completeCharacter_timings lc s
  · exact ⟨rfl, rfl⟩

theorem boundaryPhase_decoded_len (lc : Bool) (s : DecoderState) (p : Nat)
    (h : s.decoded.length ≤ 63) : (boundaryPhase lc s p).decoded.length ≤ 63 := by
  unfold boundaryPhase
  dsimp only
  split
  · split
    · exact addDecodedChar_len lc ' ' _ (completeCharacter_decoded_len lc s h)
    · exact completeCharacter_decoded_len lc s h
  · exact h

theorem boundaryPhase_pos_le (lc : Bool) (s : DecoderState) (p : Nat)
    (h : s.morseTreePos ≤ 126) : (boundaryPhase lc s p).morseTreePos ≤ 126 := by
  unfold boundaryPhase
  dsimp only
  split
  · split
    · rw [(addDecodedChar_fields lc ' ' _).2.2.1, completeCharacter_pos]; omega
    · rw [completeCharacter_pos]; omega
  · exact h

/-! ### Invariant preservation and reachability -/

theorem processRecord_inv (lc : Bool) (s : DecoderState) (p l : Nat) (hI : Inv s) :
    Inv (processRecord lc s p l).1 := by
  obtain ⟨hdot, hlen, hpos⟩ := hI
  unfold processRecord
  split
  · exact ⟨hdot, hlen, hpos⟩
  · next hnoise =>
    split
    · refine ⟨?_, ?_, ?_⟩
      · rw [addDit_dot]; right; show (30:Int) ≤ (l:Int); omega
      · rw [addDit_decoded]; exact hlen
      · exact addDit_pos_le _ hpos
    · next hcold =>
      have hl : 30 ≤ l := by omega
      have hdot30 : 30 ≤ s.dotTiming := by
        rcases hdot with h | h
        · exact absurd h hcold
        · exact h
      have hbdot : 30 ≤ (boundaryPhase lc s p).dotTiming := by
        rw [(boundaryPhase_timings lc s p).1]; exact hdot30
      refine ⟨?_, ?_, ?_⟩
      · exact classifyPhase_dotInv lc _ l hl hbdot
      · rw [(classifyPhase_buffers lc _ l).1]
        exact boundaryPhase_decoded_len lc s p hlen
      · exact classifyPhase_pos_le lc _ l (boundaryPhase_pos_le lc s p hpos)

theorem checkTimeout_inv (lc : Bool) (s : DecoderState) (e : Nat) (act : Bool)
    (hI : Inv s) : Inv (checkTimeout lc s e act) := by
  obtain ⟨hdot, hlen, hpos⟩ := hI
  have hflush : Inv (flushDecoded (completeCharacter lc s)) := by
    refine ⟨?_, ?_, ?_⟩
    · rw [(flushDecoded_fields _).1, (completeCharacter_timings lc s).1]; exact hdot
    · rw [flushDecoded_decoded]; simp
    · rw [(flushDecoded_fields _).2.2.1, completeCharacter_pos]; omega
  unfold checkTimeout
  dsimp only
  split
  · exact ⟨hdot, hlen, hpos⟩
  · split
    · split
      · exact ⟨hflush.1, hflush.2.1, hflush.2.2⟩
      · exact hflush
    · split
      · exact ⟨hdot, hlen, hpos⟩
      · exact ⟨hdot, hlen, hpos⟩

theorem inv_initialState : Inv initialState := by
  refine ⟨Or.inl rfl, ?_, ?_⟩ <;> simp [initialState]

theorem reachable_inv (lc : Bool) (s : DecoderState) (h : Reachable lc s) : Inv s := by
  induction h with
  | init => exact inv_initialState
  | step p l _ ih => exact processRecord_inv lc _ p l ih
  | tick e act _ ih => exact checkTimeout_inv lc _ e act ih

/-! ### Arithmetic views of the tolerance test and output growth -/

theorem isClose_iff (v t : Int) : isClose v t = true ↔ -50 ≤ v - t ∧ v - t ≤ 50 := by
  unfold isClose
  simp [abs_le]

theorem output_addDecodedChar_cases (lc : Bool) (c : Char) (s : DecoderState) :
    output (addDecodedChar lc c s) = output s ++ [applyCase lc c] ∨
    output (addDecodedChar lc c s) = output s := by
  by_cases h : s.decoded.length < 255
  · exact Or.inl (output_addDecodedChar lc c s (by omega))
  · right
    unfold addDecodedChar
    dsimp only
    rw [if_neg h]
    split
    · exact output_flushDecoded s
    · rfl

/-- Second value learning in the classification phase, when the new
length is not within tolerance of the dot estimate: after the branch
the dash slot holds the larger and the dot slot the smaller of the two
observations. -/
theorem classify_learning (lc : Bool) (s : DecoderState) (l : Nat)
    (hdash : s.dashTiming = -1) (hnc : ¬ isClose (l : Int) s.dotTiming = true) :
    ((s.dotTiming < (l : Int)) →
        (classifyPhase lc s l).1.dotTiming = s.dotTiming ∧
        (classifyPhase lc s l).1.dashTiming = (l : Int))
    ∧ (¬ (s.dotTiming < (l : Int)) →
        (classifyPhase lc s l).1.dotTiming = (l : Int) ∧
        (classifyPhase lc s l).1.dashTiming = s.dotTiming) := by
  constructor
  · intro hlt
    unfold classifyPhase
    dsimp only
    rw [if_pos hdash, if_neg hnc, if_pos hlt]
    split <;> simp [addDit_dot, addDit_dash, addDah_dot, addDah_dash]
  · intro hlt
    unfold classifyPhase
    dsimp only
    rw [if_pos hdash, if_neg hnc, if_neg hlt]
    split <;> simp [addDit_dot, addDit_dash, addDah_dot, addDah_dash]

/-- Second value learning when the new length is within tolerance of
the dot estimate: only a dit is recorded, the dash slot stays
unlearned. -/
theorem classify_learning_close (lc : Bool) (s : DecoderState) (l : Nat)
    (hdash : s.dashTiming = -1) (hc : isClose (l : Int) s.dotTiming = true) :
    (classifyPhase lc s l).1.dashTiming = -1 := by
  unfold classifyPhase
  dsimp only
  rw [if_pos hdash, if_pos hc]
  rw [addDit_dash]
  exact hdash

/-! ### The claims -/

/-- Claim C1: in every reachable state with the dot time learned
(dotTiming nonnegative), a record whose pause exceeds 2.5 dot units
and whose length passes the noise floor (so that it is classified at
all) is processed by first completing the previously accumulated
sequence with completeCharacter, which resets the tree position and
the element count, and only then classifying the new length. -/
theorem C1_completion_precedes_classification (lc : Bool) (s : DecoderState) (p l : Nat)
    (hr : Reachable lc s) (hlearned : 0 ≤ s.dotTiming) (hl : 30 ≤ l)
    (hp : 5 * s.dotTiming < 2 * (p : Int)) :
    processRecord lc s p l =
      classifyPhase lc
        (if 6 * s.dotTiming < (p : Int) then addDecodedChar lc ' ' (completeCharacter lc s)
         else completeCharacter lc s) l
    ∧ (completeCharacter lc s).morseTreePos = 0
    ∧ (completeCharacter lc s).elementCount = 0 := by
  have hInv := reachable_inv lc s hr
  have hdot30 : 30 ≤ s.dotTiming := by
    rcases hInv.1 with h | h
    · omega
    · exact h
  refine ⟨?_, completeCharacter_pos lc s, completeCharacter_count lc s⟩
  unfold processRecord
  rw [if_neg (by omega : ¬ l < 30), if_neg (by omega : ¬ s.dotTiming = -1)]
  unfold boundaryPhase
  dsimp only
  rw [if_pos ⟨by omega, hp⟩]

theorem C1_completion_precedes_classification_witness :
    0 ≤ ((processRecord false initialState 0 100).1).dotTiming
    ∧ (processRecord false (processRecord false initialState 0 100).1 300 100 =
        classifyPhase false
          (if 6 * ((processRecord false initialState 0 100).1).dotTiming < ((300 : Nat) : Int) then
            addDecodedChar false ' '
              (completeCharacter false (processRecord false initialState 0 100).1)
           else completeCharacter false (processRecord false initialState 0 100).1) 100
      ∧ (completeCharacter false (processRecord false initialState 0 100).1).morseTreePos = 0
      ∧ (completeCharacter false (processRecord false initialState 0 100).1).elementCount = 0) :=
  ⟨by decide,
   C1_completion_precedes_classification false (processRecord false initialState 0 100).1 300 100
     (Reachable.step 0 100 Reachable.init) (by decide) (by decide) (by decide)⟩

/-- Claim C2 fails on the code: the EMA update of the dot estimate can
push it past the dash estimate. Starting from the initial state, the
trace of records below reaches a state with both timings learned where
the dash time does not exceed the dot time, and a longer trace reaches
a state with the two timings equal. -/
theorem C2_counterexample :
    (0 ≤ (runRecords false initialState
        [(0, 100), (0, 151), (0, 150), (0, 162), (0, 174), (0, 186), (0, 198)]).dotTiming
    ∧ 0 ≤ (runRecords false initialState
        [(0, 100), (0, 151), (0, 150), (0, 162), (0, 174), (0, 186), (0, 198)]).dashTiming
    ∧ ¬ (runRecords false initialState
        [(0, 100), (0, 151), (0, 150), (0, 162), (0, 174), (0, 186), (0, 198)]).dotTiming <
        (runRecords false initialState
        [(0, 100), (0, 151), (0, 150), (0, 162), (0, 174), (0, 186), (0, 198)]).dashTiming)
    ∧ (runRecords false initialState
        [(0, 100), (0, 151), (0, 150), (0, 162), (0, 174), (0, 186), (0, 198), (0, 115), (0, 160)]).dotTiming =
      (runRecords false initialState
        [(0, 100), (0, 151), (0, 150), (0, 162), (0, 174), (0, 186), (0, 198), (0, 115), (0, 160)]).dashTiming := by
  decide

/-- Claim C2, amended: the step that learns the second timing value
does establish dash above dot, and both self correction rules place
the dash estimate strictly above the dot estimate; the strict order is
not preserved by the steady state EMA updates, so it is not an
invariant of all reachable states. -/
theorem C2_ordering_at_learning_and_corrections :
    (∀ (lc : Bool) (s : DecoderState) (p l : Nat),
        30 ≤ l → 0 ≤ s.dotTiming → s.dashTiming = -1 →
        0 ≤ (processRecord lc s p l).1.dashTiming →
        (processRecord lc s p l).1.dotTiming < (processRecord lc s p l).1.dashTiming)
    ∧ (∀ (lc : Bool) (s : DecoderState) (l : Nat),
        0 ≤ s.dotTiming → 0 ≤ s.dashTiming →
        ((5 * (l : Int) < 3 * s.dotTiming ∧ 30 < (l : Int)) ∨
         (6 * s.dotTiming < s.dashTiming ∧ 2 * s.dotTiming < (l : Int) ∧ (l : Int) < s.dashTiming)) →
        (classifyPhase lc s l).1.dotTiming < (classifyPhase lc s l).1.dashTiming) := by
  constructor
  · intro lc s p l hl h0 hdash hres
    have hbdot : (boundaryPhase lc s p).dotTiming = s.dotTiming :=
      (boundaryPhase_timings lc s p).1
    have hbdash : (boundaryPhase lc s p).dashTiming = -1 := by
      rw [(boundaryPhase_timings lc s p).2]; exact hdash
    have hunfold : processRecord lc s p l = classifyPhase lc (boundaryPhase lc s p) l := by
      unfold processRecord
      rw [if_neg (by omega : ¬ l < 30), if_neg (by omega : ¬ s.dotTiming = -1)]
    rw [hunfold] at hres ⊢
    by_cases hc : isClose (l : Int) (boundaryPhase lc s p).dotTiming = true
    · exfalso
      rw [classify_learning_close lc _ l hbdash hc] at hres
      omega
    · by_cases hlt : (boundaryPhase lc s p).dotTiming < (l : Int)
      · obtain ⟨e1, e2⟩ := (classify_learning lc _ l hbdash hc).1 hlt
        rw [e1, e2, hbdot]
        rw [hbdot] at hlt
        exact hlt
      · obtain ⟨e1, e2⟩ := (classify_learning lc _ l hbdash hc).2 hlt
        rw [e1, e2, hbdot]
        rw [isClose_iff] at hc
        rw [hbdot] at hlt
        omega
  · intro lc s l h0 hdash hcorr
    by_cases h1 : 5 * (l : Int) < 3 * s.dotTiming ∧ 30 < (l : Int)
    · unfold classifyPhase
      dsimp only
      rw [if_neg (by omega : ¬ s.dashTiming = -1), if_pos h1]
      rw [addDit_dot, addDit_dash]
      dsimp only
      omega
    · have h2 := hcorr.resolve_left h1
      unfold classifyPhase
      dsimp only
      rw [if_neg (by omega : ¬ s.dashTiming = -1), if_neg h1, if_pos h2]
      rw [addDah_dot, addDah_dash]
      dsimp only
      omega

theorem C2_ordering_witness :
    ((processRecord false initialState 0 100).1).dashTiming = -1
    ∧ (processRecord false (processRecord false initialState 0 100).1 0 300).1.dotTiming <
      (processRecord false (processRecord false initialState 0 100).1 0 300).1.dashTiming :=
  ⟨by decide,
   C2_ordering_at_learning_and_corrections.1 false (processRecord false initialState 0 100).1
     0 300 (by decide) (by decide) (by decide) (by decide)⟩

/-- Claim C3 fails on the code at an equidistant length: in the
reachable state with dot 100 and dash 300, the length 200 is within
tolerance of neither, no self correction applies, both absolute
distances are 100, and the record is classified as a Dash, not a Dot
(the code tests dotDiff < dashDiff, so the tie falls to the else
branch). -/
theorem C3_counterexample :
    isClose ((200 : Nat) : Int)
        (runRecords false initialState [(0, 100), (0, 300)]).dotTiming = false
    ∧ isClose ((200 : Nat) : Int)
        (runRecords false initialState [(0, 100), (0, 300)]).dashTiming = false
    ∧ ¬ (5 * ((200 : Nat) : Int) < 3 * (runRecords false initialState [(0, 100), (0, 300)]).dotTiming
          ∧ 30 < ((200 : Nat) : Int))
    ∧ ¬ (6 * (runRecords false initialState [(0, 100), (0, 300)]).dotTiming <
            (runRecords false initialState [(0, 100), (0, 300)]).dashTiming
          ∧ 2 * (runRecords false initialState [(0, 100), (0, 300)]).dotTiming < ((200 : Nat) : Int)
          ∧ ((200 : Nat) : Int) < (runRecords false initialState [(0, 100), (0, 300)]).dashTiming)
    ∧ |((200 : Nat) : Int) - (runRecords false initialState [(0, 100), (0, 300)]).dotTiming| =
        |((200 : Nat) : Int) - (runRecords false initialState [(0, 100), (0, 300)]).dashTiming|
    ∧ (processRecord false (runRecords false initialState [(0, 100), (0, 300)]) 0 200).2 = Symbol.dash
    ∧ ¬ (processRecord false (runRecords false initialState [(0, 100), (0, 300)]) 0 200).2 = Symbol.dot := by
  decide

/-- Claim C3, amended: in steady state (dash learned, no self
correction rule applying, the length within tolerance of neither
estimate) the record is classified by the smaller absolute distance to
the dot versus the dash estimate, and when the two distances are equal
the record is classified as Dash. -/
theorem C3_nearest_distance_tie_to_dash (lc : Bool) (s : DecoderState) (l : Nat)
    (h0 : 0 ≤ s.dashTiming)
    (hc1 : ¬ (5 * (l : Int) < 3 * s.dotTiming ∧ 30 < (l : Int)))
    (hc2 : ¬ (6 * s.dotTiming < s.dashTiming ∧ 2 * s.dotTiming < (l : Int) ∧ (l : Int) < s.dashTiming))
    (hd : ¬ isClose (l : Int) s.dotTiming = true)
    (ha : ¬ isClose (l : Int) s.dashTiming = true) :
    classifyPhase lc s l =
      (if |(l : Int) - s.dotTiming| < |(l : Int) - s.dashTiming| then (addDit s, Symbol.dot)
       else (addDah s, Symbol.dash))
    ∧ (|(l : Int) - s.dotTiming| = |(l : Int) - s.dashTiming| →
        (classifyPhase lc s l).2 = Symbol.dash) := by
  have heq : classifyPhase lc s l =
      (if |(l : Int) - s.dotTiming| < |(l : Int) - s.dashTiming| then (addDit s, Symbol.dot)
       else (addDah s, Symbol.dash)) := by
    unfold classifyPhase
    dsimp only
    rw [if_neg (by omega : ¬ s.dashTiming = -1), if_neg hc1, if_neg hc2, if_neg hd, if_neg ha]
  refine ⟨heq, fun hEq => ?_⟩
  rw [heq, if_neg (by rw [hEq]; exact lt_irrefl _)]

theorem C3_nearest_distance_witness :
    0 ≤ (runRecords false initialState [(0, 100), (0, 300)]).dashTiming
    ∧ (classifyPhase false (runRecords false initialState [(0, 100), (0, 300)]) 190 =
        (if |((190 : Nat) : Int) - (runRecords false initialState [(0, 100), (0, 300)]).dotTiming| <
            |((190 : Nat) : Int) - (runRecords false initialState [(0, 100), (0, 300)]).dashTiming|
         then (addDit (runRecords false initialState [(0, 100), (0, 300)]), Symbol.dot)
         else (addDah (runRecords false initialState [(0, 100), (0, 300)]), Symbol.dash))
      ∧ (|((190 : Nat) : Int) - (runRecords false initialState [(0, 100), (0, 300)]).dotTiming| =
          |((190 : Nat) : Int) - (runRecords false initialState [(0, 100), (0, 300)]).dashTiming| →
          (classifyPhase false (runRecords false initialState [(0, 100), (0, 300)]) 190).2 = Symbol.dash)) := by
  constructor
  · decide
  · exact C3_nearest_distance_tie_to_dash false (runRecords false initialState [(0, 100), (0, 300)])
      190 (by decide) (by decide) (by decide) (by decide) (by decide)

/-- Claim C4: for every defined tree position between 1 and 126,
feeding its dot dash path symbol by symbol from the root and then
completing emits exactly the character stored at that position. -/
theorem C4_tree_roundtrip (p : Nat) (h1 : 1 ≤ p) (h2 : p ≤ 126) (h3 : treeChar p ≠ nul) :
    output (completeCharacter false (feedPath initialState (pathTo p))) = [treeChar p] := by
  have key : ∀ q, q < 127 → 1 ≤ q → treeChar q ≠ nul →
      output (completeCharacter false (feedPath initialState (pathTo q))) = [treeChar q] := by
    decide
  exact key p (by omega) h1 h3

theorem C4_tree_roundtrip_witness :
    1 ≤ 20 ∧ 20 ≤ 126 ∧ treeChar 20 ≠ nul
    ∧ output (completeCharacter false (feedPath initialState (pathTo 20))) = [treeChar 20] :=
  ⟨by decide, by decide, by decide, C4_tree_roundtrip 20 (by decide) (by decide) (by decide)⟩

/-- Claim C5: a parsed record whose length is positive but below the
30 ms noise floor is classified as Noise and the entire decoder state
is returned unchanged, so no symbol advances the accumulator and the
timing model is untouched. -/
theorem C5_noise_is_atomic (lc : Bool) (s : DecoderState) (p l : Nat)
    (_h1 : 1 ≤ l) (h2 : l < 30) :
    processRecord lc s p l = (s, Symbol.noise) := by
  unfold processRecord
  rw [if_pos h2]

theorem C5_noise_is_atomic_witness :
    1 ≤ 10 ∧ 10 < 30
    ∧ processRecord false (processRecord false initialState 0 100).1 500 10 =
        ((processRecord false initialState 0 100).1, Symbol.noise) :=
  ⟨by decide, by decide,
   C5_noise_is_atomic false (processRecord false initialState 0 100).1 500 10
     (by decide) (by decide)⟩

/-- Claim C6 fails on the code for sub threshold lengths: in the
reachable state where the dot time 100 is learned and one dit is
accumulated, a record with pause 1000 (far above 6 dot units) but
length 5 is discarded by the glitch filter before the boundary check,
so no character is completed and no space is appended (the state is
returned unchanged and the output contains no space at all). -/
theorem C6_counterexample :
    0 ≤ ((processRecord false initialState 0 100).1).dotTiming
    ∧ 6 * ((processRecord false initialState 0 100).1).dotTiming < ((1000 : Nat) : Int)
    ∧ (processRecord false (processRecord false initialState 0 100).1 1000 5).1 =
        (processRecord false initialState 0 100).1
    ∧ (output (processRecord false (processRecord false initialState 0 100).1 1000 5).1).count ' '
        = 0
    ∧ ((processRecord false initialState 0 100).1).elementCount = 1 := by
  decide

/-- Claim C6, amended: for every record that passes the 30 ms noise
floor, processed in a reachable state with the dot time learned and
with a pause exceeding 6 dot units, the pending character is completed
and then exactly one space is appended to the output, in that order,
before the length is classified; the completion itself never
contributes a space. -/
theorem C6_word_space_after_completion (lc : Bool) (s : DecoderState) (p l : Nat)
    (hr : Reachable lc s) (hlearned : 0 ≤ s.dotTiming) (hl : 30 ≤ l)
    (hp : 6 * s.dotTiming < (p : Int)) :
    output (processRecord lc s p l).1 = output s ++ charEmission lc s ++ [' ']
    ∧ ' ' ∉ charEmission lc s
    ∧ processRecord lc s p l = classifyPhase lc (addDecodedChar lc ' ' (completeCharacter lc s)) l := by
  have hInv := reachable_inv lc s hr
  have hdot30 : 30 ≤ s.dotTiming := by
    rcases hInv.1 with h | h
    · omega
    · exact h
  have heq : processRecord lc s p l =
      classifyPhase lc (addDecodedChar lc ' ' (completeCharacter lc s)) l := by
    unfold processRecord
    rw [if_neg (by omega : ¬ l < 30), if_neg (by omega : ¬ s.dotTiming = -1)]
    unfold boundaryPhase
    dsimp only
    rw [if_pos ⟨by omega, by omega⟩, if_pos hp]
  refine ⟨?_, ?_, heq⟩
  · rw [heq]
    rw [output_classifyPhase]
    rw [output_addDecodedChar lc ' ' _ (by
      have := completeCharacter_decoded_len lc s hInv.2.1
      omega)]
    rw [applyCase_space, output_completeCharacter lc s (by
      have := hInv.2.1
      omega)]
  · unfold charEmission
    split
    · intro hmem
      rcases List.mem_singleton.mp hmem with h
      exact applyCase_treeChar_ne_space lc s.morseTreePos h.symm
    · intro hmem
      exact (List.not_mem_nil ' ') hmem

theorem C6_word_space_witness :
    6 * ((processRecord false initialState 0 100).1).dotTiming < ((1000 : Nat) : Int)
    ∧ output (processRecord false (processRecord false initialState 0 100).1 1000 100).1 =
        output (processRecord false initialState 0 100).1
          ++ charEmission false (processRecord false initialState 0 100).1 ++ [' '] :=
  ⟨by decide,
   (C6_word_space_after_completion false (processRecord false initialState 0 100).1 1000 100
     (Reachable.step 0 100 Reachable.init) (by decide) (by decide) (by decide)).1⟩

/-- Claim C7: a candidate record whose length field parses to zero is
rejected by processCommand without producing any state (first part);
on such a rejection the line scanner resumes one character past the
rejected marker (second part); and the malformed line from the spec
scenario produces no record and leaves every starting state untouched
(third part). -/
theorem C7_zero_length_rejected (lc0 : Bool) :
    (∀ (lc : Bool) (s : DecoderState) (rest after2 : List Char),
        splitAfterComma rest = some after2 →
        parseNat (digitsOf after2) = 0 →
        processCommand lc s rest = none)
    ∧ (∀ (lc : Bool) (fuel : Nat) (s : DecoderState) (cs csS : List Char) (idx : Nat),
        dropToMarker cs = some csS →
        List.findIdx? (fun c => c == ',') csS = some idx →
        ¬ 20 < idx →
        tryRecord lc s (csS.drop (idx + 1)) = none →
        handleLineAux lc (fuel + 1) s cs = handleLineAux lc fuel s (csS.drop 1))
    ∧ (∀ s : DecoderState,
        handleLine lc0 s (("garbageSxyz,12,abc more text").toList) = s) := by
  refine ⟨?_, ?_, ?_⟩
  · intro lc s rest after2 hsplit hzero
    unfold processCommand
    rw [hsplit]
    dsimp only
    rw [if_pos hzero]
  · intro lc fuel s cs csS idx h1 h2 h3 h4
    conv_lhs => rw [handleLineAux.eq_def]
    dsimp only
    rw [h1]
    dsimp only
    rw [h2]
    dsimp only
    rw [if_neg h3, h4]
  · intro s
    rfl

theorem C7_zero_length_rejected_witness :
    processCommand false initialState (("5,0x").toList) = none
    ∧ handleLine false initialState (("garbageSxyz,12,abc more text").toList) = initialState :=
  ⟨(C7_zero_length_rejected false).1 false initialState (("5,0x").toList) (("0x").toList)
      (by decide) (by decide),
   (C7_zero_length_rejected false).2.2 initialState⟩

/-- Claim C8: completeCharacter is idempotent (a second call with no
intervening symbol changes nothing), it grows the output by at most
one character, and with an empty element count it only rewrites the
tree position and element count to zero and leaves the output
unchanged. -/
theorem C8_complete_idempotent (lc : Bool) (s : DecoderState) :
    completeCharacter lc (completeCharacter lc s) = completeCharacter lc s
    ∧ (output (completeCharacter lc s)).length ≤ (output s).length + 1
    ∧ (s.elementCount = 0 →
        completeCharacter lc s = { s with morseTreePos := 0, elementCount := 0 }
        ∧ output (completeCharacter lc s) = output s) := by
  refine ⟨?_, ?_, ?_⟩
  · rfl
  · unfold completeCharacter
    dsimp only
    split
    · split
      · show (output (addDecodedChar lc (treeChar s.morseTreePos) s)).length ≤ _
        rcases output_addDecodedChar_cases lc (treeChar s.morseTreePos) s with h | h
        · rw [h]; simp
        · rw [h]; omega
      · show (output s).length ≤ _
        omega
    · show (output s).length ≤ _
      omega
  · intro hc
    have hguard : ¬ (0 < s.elementCount ∧ s.morseTreePos < 128) := by omega
    constructor
    · unfold completeCharacter
      dsimp only
      rw [if_neg hguard]
    · unfold completeCharacter
      dsimp only
      rw [if_neg hguard]
      rfl

theorem C8_complete_idempotent_witness :
    (runRecords false initialState [(0, 100)]).elementCount = 0 ∨
    (completeCharacter false initialState =
        { initialState with morseTreePos := 0, elementCount := 0 }
      ∧ output (completeCharacter false initialState) = output initialState) :=
  Or.inr ((C8_complete_idempotent false initialState).2.2 rfl)

/-- Claim C9: checkTimeout never appends a word space: for every
state, elapsed time and activity flag, the number of spaces in the
output stream is unchanged by checkTimeout (it may complete and flush
a pending character, and it clears pendingWordGap without emitting
anything). -/
theorem C9_timeout_never_emits_space (lc : Bool) (s : DecoderState) (e : Nat) (act : Bool) :
    (output (checkTimeout lc s e act)).count ' ' = (output s).count ' ' := by
  unfold checkTimeout
  dsimp only
  split
  · rfl
  · split
    · split
      · show (output (flushDecoded (completeCharacter lc s))).count ' ' = _
        rw [output_flushDecoded]
        exact count_space_completeCharacter lc s
      · rw [output_flushDecoded]
        exact count_space_completeCharacter lc s
    · split
      · rfl
      · rfl

/-- Claim C10: in every reachable state the tree position lies within
0 and 126 (so the morseTree read in completeCharacter stays inside the
128 entry table), and addDit and addDah are no-ops from any position
63 or beyond. -/
theorem C10_tree_position_bounded :
    (∀ (lc : Bool) (s : DecoderState), Reachable lc s → s.morseTreePos ≤ 126)
    ∧ (∀ s : DecoderState, 63 ≤ s.morseTreePos → addDit s = s ∧ addDah s = s) := by
  constructor
  · intro lc s h
    exact (reachable_inv lc s h).2.2
  · intro s h
    constructor
    · unfold addDit
      rw [if_neg (by omega)]
    · unfold addDah
      rw [if_neg (by omega)]

theorem C10_tree_position_bounded_witness :
    initialState.morseTreePos ≤ 126
    ∧ addDit { initialState with morseTreePos := 63 } = { initialState with morseTreePos := 63 } :=
  ⟨C10_tree_position_bounded.1 false initialState Reachable.init,
   (C10_tree_position_bounded.2 { initialState with morseTreePos := 63 } (by decide)).1⟩

end CW
